import Mathlib

/-!
Verification development for an Azure cost-extraction pipeline.

The definitions below are shallow embeddings of the Python sources:

* `auth.py` — `ServicePrincipalAuthenticator`: token caching with a
  five-minute safety buffer (`is_token_valid`, `get_token`,
  `fetch_new_token`).  Wall-clock instants are modelled as `Int` seconds;
  the network exchange of `_fetch_new_token` is modelled by passing the
  token endpoint's response (`TokenResponse`) as an explicit argument.
* `data_extractor.py` — `AzureCostExtractor`: the bounded retry loop
  `_request_with_retry` (modelled as a trace-producing state machine over
  a list of per-attempt results), pagination in `_extract_single_scope`,
  per-scope failure isolation in `extract_costs_for_date`, and the
  scope-name derivation `_extract_scope_name` (modelled over `List Char`,
  mirroring Python string operations).
* `csv_writer.py` / `delta_writer.py` — the sink layer: the deduplicating
  rewrite of `CSVWriter._save_to_csv` and the keyed MERGE of
  `DeltaLakeWriter._merge_to_delta` over an explicit tabular state, and
  the per-report loops of both `write_cost_data` methods.
-/

/-! ## Token provider (`auth.py`, `ServicePrincipalAuthenticator`) -/

/-- Cached-credential state of `ServicePrincipalAuthenticator`: the fields
`self._token` and `self._token_expiry`.  Expiry instants are absolute times
in seconds. -/
structure SPState where
  token : Option String
  tokenExpiry : Option Int
deriving DecidableEq, Repr

/-- Body of the token endpoint's JSON response as read by
`_fetch_new_token`: `access_token` (absent ⇒ `ValueError`) and
`expires_in` (defaulted to 3600 when absent). -/
structure TokenResponse where
  access_token : Option String
  expires_in : Option Int
deriving DecidableEq, Repr

/-- Five-minute refresh buffer of `_is_token_valid`
(`timedelta(minutes=5)`), in seconds. -/
def tokenBufferSeconds : Int := 300

/-- `ServicePrincipalAuthenticator._is_token_valid`: the cached token is
valid iff both cache fields are set and `now < expiry - buffer`. -/
def is_token_valid (st : SPState) (now : Int) : Bool :=
  match st.token, st.tokenExpiry with
  | some _, some e => decide (now < e - tokenBufferSeconds)
  | _, _ => false

/-- `ServicePrincipalAuthenticator._fetch_new_token`: fails when the
response carries no `access_token`; otherwise caches the token with expiry
`now + expires_in` (default 3600) and returns it. -/
def fetch_new_token (now : Int) (resp : TokenResponse) :
    Except String (String × SPState) :=
  match resp.access_token with
  | none => .error "No access_token in authentication response"
  | some tok =>
      .ok (tok, { token := some tok,
                  tokenExpiry := some (now + resp.expires_in.getD 3600) })

/-- `ServicePrincipalAuthenticator.get_token`: return the cached token when
still valid, else fetch a new one.  The third component records whether a
network fetch was performed. -/
def get_token (st : SPState) (now : Int) (resp : TokenResponse) :
    Except String (String × SPState × Bool) :=
  if is_token_valid st now then
    .ok (st.token.getD "", st, false)
  else
    (fetch_new_token now resp).map (fun p => (p.1, p.2, true))

/-- `ServicePrincipalAuthenticator.invalidate_token`: clears both cache
fields. -/
def invalidate_token (_st : SPState) : SPState :=
  { token := none, tokenExpiry := none }

/-! ## Retry loop (`data_extractor.py`, `_request_with_retry`) -/

/-- `AzureCostExtractor.MAX_RETRIES`. -/
def MAX_RETRIES : Nat := 5

/-- `AzureCostExtractor.INITIAL_BACKOFF_SECONDS`. -/
def INITIAL_BACKOFF_SECONDS : Nat := 2

/-- `AzureCostExtractor.MAX_BACKOFF_SECONDS`. -/
def MAX_BACKOFF_SECONDS : Nat := 120

/-- Kind of transport exception raised by `requests` and caught by the
retry loop (`requests.exceptions.Timeout` / `ConnectionError`). -/
inductive TransportKind where
  | timeout
  | conn
deriving DecidableEq, Repr

/-- Result of one HTTP attempt, as observed by `_request_with_retry`:
either a response with a status code (and, for modelling the
`Retry-After` header, its parsed value when present) or a raised
transport exception. -/
inductive AttemptResult where
  | status (code : Nat) (retryAfter : Option Nat)
  | timeout
  | connError
deriving DecidableEq, Repr

/-- Observable side effects of the retry loop, in order: header
acquisition (`self._auth.get_auth_headers()`), sleeps (`time.sleep`), and
token invalidation (`self._auth.invalidate_token()`). -/
inductive RetryEvent where
  | getHeaders
  | sleep (seconds : Nat)
  | invalidateToken
deriving DecidableEq, Repr

/-- How `_request_with_retry` terminates: a returned response, an
`HTTPError` from `raise_for_status`, the re-raised last transport
exception, or the generic `RequestException` after the attempt budget is
spent. -/
inductive RetryOutcome where
  | success (code : Nat)
  | httpError (code : Nat)
  | transportError (k : TransportKind)
  | exhausted
deriving DecidableEq, Repr

/-- Body of the `for attempt in range(MAX_RETRIES)` loop of
`_request_with_retry`, driven by the list of attempt results still to
come.  Carries the mutable `backoff` and `last_exception` variables and
returns the event trace together with the outcome.  Branches, in source
order: 401 (invalidate, sleep 1, no backoff change), 429 (sleep
`Retry-After` if present else capped backoff, double), `>= 500` (sleep
capped backoff, double), `raise_for_status` (4xx raises, else return),
and the two transport-exception handlers (record exception, sleep capped
backoff, double). -/
def retryGo (backoff : Nat) (lastT : Option TransportKind) :
    List AttemptResult → List RetryEvent × RetryOutcome
  | [] =>
      ([], match lastT with
           | some k => .transportError k
           | none => .exhausted)
  | a :: rest =>
      match a with
      | .status code ra =>
          if code == 401 then
            let r := retryGo backoff lastT rest
            (.getHeaders :: .invalidateToken :: .sleep 1 :: r.1, r.2)
          else if code == 429 then
            let wait := match ra with
                        | some v => v
                        | none => min backoff MAX_BACKOFF_SECONDS
            let r := retryGo (backoff * 2) lastT rest
            (.getHeaders :: .sleep wait :: r.1, r.2)
          else if 500 ≤ code then
            let r := retryGo (backoff * 2) lastT rest
            (.getHeaders :: .sleep (min backoff MAX_BACKOFF_SECONDS) :: r.1, r.2)
          else if 400 ≤ code then
            ([.getHeaders], .httpError code)
          else
            ([.getHeaders], .success code)
      | .timeout =>
          let r := retryGo (backoff * 2) (some .timeout) rest
          (.getHeaders :: .sleep (min backoff MAX_BACKOFF_SECONDS) :: r.1, r.2)
      | .connError =>
          let r := retryGo (backoff * 2) (some .conn) rest
          (.getHeaders :: .sleep (min backoff MAX_BACKOFF_SECONDS) :: r.1, r.2)

/-- `AzureCostExtractor._request_with_retry`: at most `MAX_RETRIES`
attempts, starting from `INITIAL_BACKOFF_SECONDS` with no recorded
exception. -/
def request_with_retry (attempts : List AttemptResult) :
    List RetryEvent × RetryOutcome :=
  retryGo INITIAL_BACKOFF_SECONDS none (attempts.take MAX_RETRIES)

/-- Durations of the `time.sleep` calls in a trace, in order. -/
def sleepDurations (evs : List RetryEvent) : List Nat :=
  evs.filterMap fun e =>
    match e with
    | .sleep d => some d
    | _ => none

/-- Number of `invalidate_token()` calls in a trace. -/
def countInvalidate (evs : List RetryEvent) : Nat :=
  evs.countP fun e => e == .invalidateToken

/-- Number of `get_auth_headers()` calls in a trace. -/
def countHeaders (evs : List RetryEvent) : Nat :=
  evs.countP fun e => e == .getHeaders

/-- An attempt result on which the loop returns or raises immediately
(neither 401, 429, `>= 500`, nor a transport exception). -/
def stopsLoop : AttemptResult → Bool
  | .status code _ => !(code == 401) && !(code == 429) && code < 500
  | _ => false

/-- The prefix of the attempt results the loop actually consumes: it runs
past every retryable result and stops at the first result that makes it
return or raise. -/
def executedPrefix : List AttemptResult → List AttemptResult
  | [] => []
  | a :: rest => if stopsLoop a then [a] else a :: executedPrefix rest

/-- Number of 401 responses in a list of attempt results. -/
def count401 (l : List AttemptResult) : Nat :=
  l.countP fun a =>
    match a with
    | .status c _ => c == 401
    | _ => false

/-- Whether an attempt result is a 401 response. -/
def is401 : AttemptResult → Bool
  | .status c _ => c == 401
  | _ => false

/-- Whether an attempt result carries no `Retry-After` header. -/
def noRetryAfter : AttemptResult → Bool
  | .status _ ra => ra.isNone
  | _ => true

/-- Evolution of the loop's `last_exception` variable across attempt
results, starting from `acc`. -/
def lastTransportFrom (acc : Option TransportKind) :
    List AttemptResult → Option TransportKind
  | [] => acc
  | a :: rest =>
      match a with
      | .timeout => lastTransportFrom (some .timeout) rest
      | .connError => lastTransportFrom (some .conn) rest
      | .status _ _ => lastTransportFrom acc rest

/-- The kind of the last transport exception among a list of attempt
results, if any. -/
def lastTransportKind (l : List AttemptResult) : Option TransportKind :=
  lastTransportFrom none l

/-- Scanner for the 401 trace discipline: every `invalidate_token()` call
is immediately followed by a one-second sleep, and whatever follows that
sleep (if anything) starts with a fresh header acquisition. -/
def invSleepOk : List RetryEvent → Bool
  | [] => true
  | .invalidateToken :: .sleep 1 :: rest =>
      (rest.isEmpty || rest.head? == some .getHeaders) && invSleepOk rest
  | .invalidateToken :: _ => false
  | _ :: rest => invSleepOk rest

/-! ## Pagination (`data_extractor.py`, `_extract_single_scope`) -/

/-- One Query API JSON response as read by `_extract_single_scope`:
`properties.columns`, `properties.rows` (defaulted to `[]`), and the
optional `properties.nextLink`. -/
structure QueryPage where
  columns : List String
  rows : List (List String)
  nextLink : Option String
deriving DecidableEq, Repr

/-- `AzureCostExtractor._convert_to_csv`: header row of column names
followed by the data rows (CSV lines modelled as cell lists). -/
def convert_to_csv (columnNames : List String) (rows : List (List String)) :
    List (List String) :=
  columnNames :: rows

/-- The `while response_data["properties"].get("nextLink")` loop of
`_extract_single_scope`: accumulate the current page's rows and, while a
continuation link is present, fetch the next page.  The environment's
successive responses to `_fetch_next_page` are supplied as the list
`rest`; an empty `rest` under a pending link models an unanswered fetch
and yields what was accumulated so far (the theorems below only use
well-formed chains, where this branch is unreachable). -/
def paginateRows : QueryPage → List QueryPage → List (List String)
  | p, [] => p.rows
  | p, q :: qs =>
      p.rows ++
        match p.nextLink with
        | none => []
        | some _ => paginateRows q qs

/-- `AzureCostExtractor._extract_single_scope`: the CSV content (converted
from the column schema of the *first* response and all accumulated rows)
together with the row count. -/
def extract_single_scope (first : QueryPage) (rest : List QueryPage) :
    List (List String) × Nat :=
  (convert_to_csv (first.columns) (paginateRows first rest),
   (paginateRows first rest).length)

/-! ## Scope orchestration (`data_extractor.py`, `extract_costs_for_date`
and `_extract_scope_name`) -/

/-- Python `str.split('/')` over a character sequence: always returns at
least one (possibly empty) piece; empty pieces are kept. -/
def splitSlash : List Char → List (List Char)
  | [] => [[]]
  | c :: cs =>
      let r := splitSlash cs
      if c = '/' then
        [] :: r
      else
        match r with
        | [] => [[c]]
        | p :: ps => (c :: p) :: ps

/-- Python substring containment (`needle in hay`) over character
sequences. -/
def hasSubstring (hay needle : List Char) : Bool :=
  match hay with
  | [] => needle.isEmpty
  | c :: t => needle.isPrefixOf (c :: t) || hasSubstring t needle

/-- `AzureCostExtractor._extract_scope_name` over the scope id's character
sequence.  Mirrors the source: a substring guard, `parts.index(...)` with
`ValueError`/`IndexError` falling through (`Option` failure), the
`subscriptions` branch truncating the following segment to 8 characters,
the `managementGroups` branch keeping it whole, and the fallback
`parts[-1] if parts[-1] else scope_id[:20]`. -/
def scope_name_core (l : List Char) : List Char :=
  let parts := splitSlash l
  let subName : Option (List Char) :=
    if hasSubstring l ("subscriptions".data) then
      match parts.findIdx? (fun p => p == "subscriptions".data) with
      | some i =>
          match parts.get? (i + 1) with
          | some p => some ("subscription-".data ++ p.take 8)
          | none => none
      | none => none
    else none
  match subName with
  | some r => r
  | none =>
      let mgName : Option (List Char) :=
        if hasSubstring l ("managementGroups".data) then
          match parts.findIdx? (fun p => p == "managementGroups".data) with
          | some i =>
              match parts.get? (i + 1) with
              | some p => some ("mg-".data ++ p)
              | none => none
          | none => none
        else none
      match mgName with
      | some r => r
      | none =>
          let last := parts.getLastD []
          if last.isEmpty then l.take 20 else last

/-- `AzureCostExtractor._extract_scope_name` on `String`. -/
def extract_scope_name (s : String) : String :=
  String.mk (scope_name_core s.data)

/-- `CostReportData` (`data_extractor.py`): the per-scope report record.
`csv_content` holds the CSV lines produced by `_convert_to_csv`. -/
structure CostReportData where
  scope_id : String
  scope_name : String
  target_date : String
  csv_content : List (List String)
  row_count : Nat
deriving DecidableEq, Repr

/-- Loop body chaining of `extract_costs_for_date`: per scope, derive the
name, run the single-scope extraction (its outcome supplied by the oracle
`extractOne`, `none` modelling a raised exception), and on failure log and
continue with the remaining scopes. -/
def extractCostsGo (extractOne : String → Option (List (List String) × Nat))
    (dateLabel : String) : List String → List CostReportData
  | [] => []
  | s :: rest =>
      match extractOne s with
      | none => extractCostsGo extractOne dateLabel rest
      | some (csv, n) =>
          { scope_id := s
            scope_name := extract_scope_name s
            target_date := dateLabel
            csv_content := csv
            row_count := n } :: extractCostsGo extractOne dateLabel rest

/-- `AzureCostExtractor.extract_costs_for_date`: defaults `end_date` to
`target_date`, labels a single day by its date and a range by
`start_to_end`, and collects one `CostReportData` per scope that
succeeds. -/
def extract_costs_for_date
    (extractOne : String → Option (List (List String) × Nat))
    (scopes : List String) (target_date : String)
    (end_date : Option String) : List CostReportData :=
  let ed := end_date.getD target_date
  let dateLabel := if target_date == ed then target_date
                   else target_date ++ "_to_" ++ ed
  extractCostsGo extractOne dateLabel scopes

/-! ## Sink layer (`csv_writer.py` and `delta_writer.py`) -/

/-- Tabular state shared by both writers: a named column list and rows of
cell values (a pandas/Spark DataFrame, and also the persisted content of
a CSV file or Delta table). -/
structure DataFrame where
  cols : List String
  rows : List (List String)
deriving DecidableEq, Repr

/-- Value of column `c` in a row laid out along `cols` (`none` when the
column is absent). -/
def colVal (cols : List String) (row : List String) (c : String) :
    Option String :=
  match cols.findIdx? (fun x => x == c) with
  | some i => row.get? i
  | none => none

/-- Key columns of `CSVWriter._save_to_csv`'s deduplication
(`key_columns`). -/
def csvKeyColumns : List String :=
  ["Date", "ResourceId", "MeterId", "SubscriptionId", "_source_scope"]

/-- Key columns of `DeltaLakeWriter._merge_to_delta`'s merge condition. -/
def deltaKeyColumns : List String :=
  ["_cost_date", "ResourceId", "MeterId", "SubscriptionId", "_source_scope"]

/-- Projection of a row onto a list of key columns. -/
def keyOf (keyCols cols : List String) (row : List String) :
    List (Option String) :=
  keyCols.map (colVal cols row)

/-- Pandas `drop_duplicates(subset=keyCols, keep='last')`: rows equal on
the key projection are collapsed to their last occurrence, order
otherwise preserved. -/
def drop_duplicates_keep_last (keyCols cols : List String) :
    List (List String) → List (List String)
  | [] => []
  | r :: rs =>
      if rs.any (fun r2 => decide (keyOf keyCols cols r2 = keyOf keyCols cols r)) then
        drop_duplicates_keep_last keyCols cols rs
      else
        r :: drop_duplicates_keep_last keyCols cols rs

/-- `CSVWriter._save_to_csv`: when no file exists the frame is written as
is; when one exists it is read back, the new rows are appended
(`pd.concat`, modelled for the aligned-schema case the writer itself
produces), and the result is deduplicated on whichever key columns are
present — skipped when none is. -/
def save_to_csv (existing : Option DataFrame) (df : DataFrame) : DataFrame :=
  match existing with
  | none => df
  | some ex =>
      let combined : DataFrame := ⟨ex.cols, ex.rows ++ df.rows⟩
      let avail := csvKeyColumns.filter (fun c => combined.cols.contains c)
      if avail = [] then combined
      else ⟨combined.cols, drop_duplicates_keep_last avail combined.cols combined.rows⟩

/-- Target-row update and source-row insertion of the Delta MERGE in
`_merge_to_delta`: each target row matched on the composite key by a
source row is replaced by it (`whenMatchedUpdateAll`), and every source
row matching no target row is appended (`whenNotMatchedInsertAll`). -/
def merge_rows (tcols : List String) (trows : List (List String))
    (scols : List String) (srows : List (List String)) :
    List (List String) :=
  trows.map (fun tr =>
    match srows.find? (fun sr =>
        decide (keyOf deltaKeyColumns scols sr = keyOf deltaKeyColumns tcols tr)) with
    | some sr => sr
    | none => tr)
  ++ srows.filter (fun sr =>
       !(trows.any (fun tr =>
           decide (keyOf deltaKeyColumns tcols tr = keyOf deltaKeyColumns scols sr))))

/-- `DeltaLakeWriter._merge_to_delta`: when no Delta table exists the frame
creates it (`_create_partitioned_table`); otherwise MERGE into the
existing table on the composite key. -/
def merge_to_delta (state : Option DataFrame) (df : DataFrame) :
    Option DataFrame :=
  match state with
  | none => some df
  | some t => some ⟨t.cols, merge_rows t.cols t.rows df.cols df.rows⟩

/-- A report processed by a writer loop; mirrors the body of the
`for report in cost_reports` loops, whose load/enrich/persist work is
summarised by its outcome: the row count written, or a raised
exception. -/
def isOkE (e : Except String Nat) : Bool :=
  match e with
  | .ok _ => true
  | .error _ => false

/-- `CSVWriter.write_cost_data`: the per-report body runs inside
`try/except`, so a failing report is logged and skipped and the loop
continues; returns the reports actually written (in order) and the
accumulated row total. -/
def csv_write_cost_data (processOne : CostReportData → Except String Nat) :
    List CostReportData → List CostReportData × Nat
  | [] => ([], 0)
  | r :: rest =>
      let t := csv_write_cost_data processOne rest
      match processOne r with
      | .error _ => t
      | .ok n => (r :: t.1, n + t.2)

/-- `DeltaLakeWriter.write_cost_data`: the per-report body has no
exception handler, so the first failing report propagates and aborts the
loop, losing the remaining reports. -/
def delta_write_cost_data (processOne : CostReportData → Except String Nat) :
    List CostReportData → Except String (List CostReportData × Nat)
  | [] => .ok ([], 0)
  | r :: rest =>
      match processOne r with
      | .error e => .error e
      | .ok n =>
          match delta_write_cost_data processOne rest with
          | .error e => .error e
          | .ok (ws, total) => .ok (r :: ws, n + total)

/-! ## Theorems -/

/-- Length of a `filterMap` counts the inputs on which the function
succeeds. -/
theorem length_filterMap_eq_countP {α β : Type} (g : α → Option β)
    (l : List α) :
    (l.filterMap g).length = l.countP fun a => (g a).isSome := by
  induction l with
  | nil => simp
  | cons a rest ih =>
      cases hg : g a with
      | none => simpa [hg, List.countP_cons] using ih
      | some b => simpa [hg, List.countP_cons] using ih

/-- Loop of `extract_costs_for_date` as a `filterMap` over the scope list:
one record per succeeding scope, in input order. -/
theorem extractCostsGo_eq_filterMap
    (f : String → Option (List (List String) × Nat)) (label : String)
    (scopes : List String) :
    extractCostsGo f label scopes =
      scopes.filterMap fun s => (f s).map fun p =>
        { scope_id := s
          scope_name := extract_scope_name s
          target_date := label
          csv_content := p.1
          row_count := p.2 } := by
  induction scopes with
  | nil => simp [extractCostsGo]
  | cons s rest ih =>
      cases hf : f s with
      | none => simp [extractCostsGo, hf, ih]
      | some p =>
          cases p with
          | mk csv n => simp [extractCostsGo, hf, ih]

/-- C2: for every scope list and date window, a per-scope failure is
skipped and the remaining scopes still processed: the result is exactly
one `CostReportData` per succeeding scope, in input order; when every
scope fails the result is the empty list, not an error; and the result
length equals the number of successes. -/
theorem extract_costs_for_date_isolates_failures
    (f : String → Option (List (List String) × Nat))
    (scopes : List String) (td : String) (ed : Option String) :
    (extract_costs_for_date f scopes td ed =
      scopes.filterMap fun s => (f s).map fun p =>
        { scope_id := s
          scope_name := extract_scope_name s
          target_date := if td == ed.getD td then td
                         else td ++ "_to_" ++ ed.getD td
          csv_content := p.1
          row_count := p.2 })
    ∧ ((∀ s ∈ scopes, f s = none) →
        extract_costs_for_date f scopes td ed = [])
    ∧ (extract_costs_for_date f scopes td ed).length =
        scopes.countP fun s => (f s).isSome := by
  have hmain : extract_costs_for_date f scopes td ed =
      scopes.filterMap fun s => (f s).map fun p =>
        { scope_id := s
          scope_name := extract_scope_name s
          target_date := if td == ed.getD td then td
                         else td ++ "_to_" ++ ed.getD td
          csv_content := p.1
          row_count := p.2 } := by
    simp only [extract_costs_for_date]
    exact extractCostsGo_eq_filterMap f _ scopes
  refine ⟨hmain, ?_, ?_⟩
  · intro hall
    rw [hmain]
    simp only [List.filterMap_eq_nil_iff]
    intro s hs
    simp [hall s hs]
  · rw [hmain]
    refine (length_filterMap_eq_countP _ scopes).trans ?_
    refine List.countP_congr ?_
    intro s _
    cases hf : f s <;> simp [hf]

/-- Witness for C2 at a concrete input where every scope fails. -/
theorem extract_costs_all_fail_witness :
    extract_costs_for_date (fun _ => none) ["sA", "sB"] "2026-01-05" none
      = [] :=
  (extract_costs_for_date_isolates_failures (fun _ => none) ["sA", "sB"]
      "2026-01-05" none).2.1 (fun _ _ => rfl)

/-- C4: the service-principal token provider returns the cached token
without a fetch exactly while `now` is strictly before `expiry` minus the
five-minute buffer; at or past that boundary (or with an empty cache) it
fetches anew; and a token obtained with `expires_in = 60` is already
invalid at any later check. -/
theorem token_cache_respects_expiry_buffer :
    (∀ st now resp, is_token_valid st now = true →
        get_token st now resp = .ok (st.token.getD "", st, false))
    ∧ (∀ st now resp tok ei, is_token_valid st now = false →
        resp.access_token = some tok → resp.expires_in = some ei →
        get_token st now resp =
          .ok (tok, ⟨some tok, some (now + ei)⟩, true))
    ∧ (∀ t0 t1 tok ei resp2, t1 < t0 + ei - tokenBufferSeconds →
        get_token ⟨some tok, some (t0 + ei)⟩ t1 resp2 =
          .ok (tok, ⟨some tok, some (t0 + ei)⟩, false))
    ∧ (∀ t0 t1 tok ei resp2, t0 + ei - tokenBufferSeconds ≤ t1 →
        get_token ⟨some tok, some (t0 + ei)⟩ t1 resp2 =
          (fetch_new_token t1 resp2).map (fun p => (p.1, p.2, true)))
    ∧ (∀ t0 t1 tok, t0 ≤ t1 →
        is_token_valid ⟨some tok, some (t0 + 60)⟩ t1 = false) := by
  refine ⟨?_, ?_, ?_, ?_, ?_⟩
  · intro st now resp h
    simp [get_token, h]
  · intro st now resp tok ei h hA hE
    simp [get_token, h, fetch_new_token, hA, hE, Except.map]
  · intro t0 t1 tok ei resp2 h
    have hv : is_token_valid ⟨some tok, some (t0 + ei)⟩ t1 = true := by
      simp only [is_token_valid, decide_eq_true_eq]
      omega
    simp [get_token, hv]
  · intro t0 t1 tok ei resp2 h
    have hv : is_token_valid ⟨some tok, some (t0 + ei)⟩ t1 = false := by
      simp only [is_token_valid, decide_eq_false_iff_not]
      omega
    simp [get_token, hv]
  · intro t0 t1 tok h
    simp only [is_token_valid, tokenBufferSeconds, decide_eq_false_iff_not]
    omega

/-- Witness for C4: a cached token still inside the buffer window is
returned without a fetch, and an `expires_in = 60` token is invalid at the
very next instant. -/
theorem token_cache_witness :
    get_token ⟨some "t1", some 1000⟩ 500 ⟨some "t2", some 3600⟩ =
      .ok ("t1", ⟨some "t1", some 1000⟩, false)
    ∧ is_token_valid ⟨some "t0", some 60⟩ 1 = false := by
  constructor
  · exact token_cache_respects_expiry_buffer.1 _ _ _ (by decide)
  · have h := token_cache_respects_expiry_buffer.2.2.2.2 0 1 "t0" (by omega)
    simpa using h

/-- Row total extracted from a writer oracle outcome. -/
def okRows (e : Except String Nat) : Option Nat :=
  match e with
  | .ok n => some n
  | .error _ => none

/-- The CSV writer's loop as filter and sum: failing reports are skipped,
succeeding ones written in order. -/
theorem csv_write_cost_data_eq
    (proc : CostReportData → Except String Nat) (reports : List CostReportData) :
    csv_write_cost_data proc reports =
      (reports.filter (fun r => isOkE (proc r)),
       (reports.filterMap (fun r => okRows (proc r))).sum) := by
  induction reports with
  | nil => simp [csv_write_cost_data]
  | cons r rest ih =>
      cases hp : proc r with
      | error e => simp [csv_write_cost_data, hp, ih, isOkE, okRows]
      | ok n => simp [csv_write_cost_data, hp, ih, isOkE, okRows]

/-- The Delta writer's loop succeeds exactly when every report does. -/
theorem delta_write_cost_data_all_ok
    (proc : CostReportData → Except String Nat) (reports : List CostReportData)
    (h : ∀ r ∈ reports, isOkE (proc r) = true) :
    delta_write_cost_data proc reports =
      .ok (reports, (reports.filterMap (fun r => okRows (proc r))).sum) := by
  induction reports with
  | nil => simp [delta_write_cost_data]
  | cons r rest ih =>
      have hr := h r (by simp)
      cases hp : proc r with
      | error e => rw [hp] at hr; simp [isOkE] at hr
      | ok n =>
          have : delta_write_cost_data proc rest =
              .ok (rest, (rest.filterMap (fun r => okRows (proc r))).sum) :=
            ih (fun x hx => h x (by simp [hx]))
          simp [delta_write_cost_data, hp, this, okRows]

/-- The Delta writer's loop raises as soon as any report fails. -/
theorem delta_write_cost_data_err
    (proc : CostReportData → Except String Nat) (reports : List CostReportData)
    (h : ∃ r ∈ reports, isOkE (proc r) = false) :
    ∀ p, delta_write_cost_data proc reports ≠ .ok p := by
  induction reports with
  | nil => simp at h
  | cons r rest ih =>
      intro p
      cases hp : proc r with
      | error e => simp [delta_write_cost_data, hp]
      | ok n =>
          obtain ⟨x, hx, hxf⟩ := h
          rcases List.mem_cons.mp hx with rfl | hx2
          · rw [hp] at hxf; simp [isOkE] at hxf
          · have hrec := ih ⟨x, hx2, hxf⟩
            simp only [delta_write_cost_data, hp]
            cases hrec2 : delta_write_cost_data proc rest with
            | error e => simp
            | ok q => exact absurd hrec2 (hrec q)

/-- C9 (amended): a failure enriching or persisting one report is caught
per report only in the CSV writer, whose loop writes every other report;
the Delta Lake writer has no per-report handler, so the whole write
succeeds only when every report does, and any failing report aborts it. -/
theorem write_cost_data_per_report_isolation
    (proc : CostReportData → Except String Nat)
    (reports : List CostReportData) :
    (csv_write_cost_data proc reports =
      (reports.filter (fun r => isOkE (proc r)),
       (reports.filterMap (fun r => okRows (proc r))).sum))
    ∧ ((∀ r ∈ reports, isOkE (proc r) = true) →
        delta_write_cost_data proc reports =
          .ok (reports, (reports.filterMap (fun r => okRows (proc r))).sum))
    ∧ ((∃ r ∈ reports, isOkE (proc r) = false) →
        ∀ p, delta_write_cost_data proc reports ≠ .ok p) :=
  ⟨csv_write_cost_data_eq proc reports,
   fun h => delta_write_cost_data_all_ok proc reports h,
   fun h => delta_write_cost_data_err proc reports h⟩

/-- First report of the C9 counterexample (its processing fails). -/
def repFailing : CostReportData :=
  { scope_id := "s1", scope_name := "n1", target_date := "2026-01-05",
    csv_content := [["H"], ["v"]], row_count := 1 }

/-- Second report of the C9 counterexample (its processing succeeds). -/
def repHealthy : CostReportData :=
  { scope_id := "s2", scope_name := "n2", target_date := "2026-01-05",
    csv_content := [["H"], ["w"]], row_count := 1 }

/-- Oracle of the C9 counterexample: the first report raises, the second
writes three rows. -/
def procOneFails : CostReportData → Except String Nat :=
  fun r => if r.scope_id == "s1" then .error "boom" else .ok 3

/-- C9 counterexample: with the first report failing, the Delta writer
aborts with the error — the healthy second report is not written — while
the CSV writer still writes it, refuting per-report isolation for both
writers. -/
theorem delta_writer_aborts_on_first_failure :
    delta_write_cost_data procOneFails [repFailing, repHealthy] =
      .error "boom"
    ∧ csv_write_cost_data procOneFails [repFailing, repHealthy] =
      ([repHealthy], 3) := ⟨rfl, rfl⟩

/-- Witness for C9 at the same concrete input: the CSV loop's
characterization and the Delta loop's abort instantiated at
`procOneFails`. -/
theorem write_cost_data_isolation_witness :
    csv_write_cost_data procOneFails [repHealthy] = ([repHealthy], 3)
    ∧ delta_write_cost_data procOneFails [repHealthy] = .ok ([repHealthy], 3) := by
  constructor
  · exact (write_cost_data_per_report_isolation procOneFails [repHealthy]).1.trans
      (by rfl)
  · exact (write_cost_data_per_report_isolation procOneFails [repHealthy]).2.1
      (by intro r hr; simp at hr; subst hr; rfl) |>.trans (by rfl)

/-- Unfolding of the retry loop at the end of the attempt budget. -/
theorem retryGo_nil (b : Nat) (l : Option TransportKind) :
    retryGo b l [] =
      ([], match l with
           | some k => .transportError k
           | none => .exhausted) := rfl

/-- Unfolding of the retry loop's 401 branch: one invalidation, a
one-second pause, and a retry with the backoff unchanged. -/
theorem retryGo_401 (b : Nat) (l : Option TransportKind) (ra : Option Nat)
    (rest : List AttemptResult) :
    retryGo b l (.status 401 ra :: rest) =
      (.getHeaders :: .invalidateToken :: .sleep 1 :: (retryGo b l rest).1,
       (retryGo b l rest).2) := rfl

/-- Unfolding of the 429 branch when a `Retry-After` header is present:
its value is slept verbatim, then the backoff doubles. -/
theorem retryGo_429_retryAfter (b : Nat) (l : Option TransportKind) (v : Nat)
    (rest : List AttemptResult) :
    retryGo b l (.status 429 (some v) :: rest) =
      (.getHeaders :: .sleep v :: (retryGo (b * 2) l rest).1,
       (retryGo (b * 2) l rest).2) := rfl

/-- Unfolding of the 429 branch without a `Retry-After` header: the capped
backoff is slept, then the backoff doubles. -/
theorem retryGo_429_noHeader (b : Nat) (l : Option TransportKind)
    (rest : List AttemptResult) :
    retryGo b l (.status 429 none :: rest) =
      (.getHeaders :: .sleep (min b MAX_BACKOFF_SECONDS) ::
         (retryGo (b * 2) l rest).1,
       (retryGo (b * 2) l rest).2) := rfl

/-- Unfolding of the server-error branch. -/
theorem retryGo_5xx (b : Nat) (l : Option TransportKind) (code : Nat)
    (ra : Option Nat) (rest : List AttemptResult) (h : 500 ≤ code) :
    retryGo b l (.status code ra :: rest) =
      (.getHeaders :: .sleep (min b MAX_BACKOFF_SECONDS) ::
         (retryGo (b * 2) l rest).1,
       (retryGo (b * 2) l rest).2) := by
  have h1 : (code == 401) = false := by simp; omega
  have h2 : (code == 429) = false := by simp; omega
  simp [retryGo, h1, h2, h]

/-- Unfolding of the success return. -/
theorem retryGo_success (b : Nat) (l : Option TransportKind) (code : Nat)
    (ra : Option Nat) (rest : List AttemptResult) (h : code < 400) :
    retryGo b l (.status code ra :: rest) =
      ([.getHeaders], .success code) := by
  have h1 : (code == 401) = false := by simp; omega
  have h2 : (code == 429) = false := by simp; omega
  have h3 : ¬ 500 ≤ code := by omega
  have h4 : ¬ 400 ≤ code := by omega
  simp [retryGo, h1, h2, h3, h4]

/-- Unfolding of `raise_for_status` on a non-retryable client error. -/
theorem retryGo_4xx (b : Nat) (l : Option TransportKind) (code : Nat)
    (ra : Option Nat) (rest : List AttemptResult)
    (h4 : 400 ≤ code) (h5 : code < 500) (h1 : code ≠ 401) (h2 : code ≠ 429) :
    retryGo b l (.status code ra :: rest) =
      ([.getHeaders], .httpError code) := by
  have hb1 : (code == 401) = false := by simp; omega
  have hb2 : (code == 429) = false := by simp; omega
  have h3 : ¬ 500 ≤ code := by omega
  simp [retryGo, hb1, hb2, h3, h4]

/-- Unfolding of the timeout handler. -/
theorem retryGo_timeout (b : Nat) (l : Option TransportKind)
    (rest : List AttemptResult) :
    retryGo b l (.timeout :: rest) =
      (.getHeaders :: .sleep (min b MAX_BACKOFF_SECONDS) ::
         (retryGo (b * 2) (some .timeout) rest).1,
       (retryGo (b * 2) (some .timeout) rest).2) := rfl

/-- Unfolding of the connection-error handler. -/
theorem retryGo_connError (b : Nat) (l : Option TransportKind)
    (rest : List AttemptResult) :
    retryGo b l (.connError :: rest) =
      (.getHeaders :: .sleep (min b MAX_BACKOFF_SECONDS) ::
         (retryGo (b * 2) (some .conn) rest).1,
       (retryGo (b * 2) (some .conn) rest).2) := rfl

/-- A 401 result does not stop the loop. -/
theorem stopsLoop_401 (ra : Option Nat) :
    stopsLoop (.status 401 ra) = false := rfl

/-- Every `invalidate_token()` call of the retry loop comes from one 401
response of the executed attempts. -/
theorem countInvalidate_retryGo (attempts : List AttemptResult) :
    ∀ (b : Nat) (l : Option TransportKind),
      countInvalidate (retryGo b l attempts).1 =
        count401 (executedPrefix attempts) := by
  induction attempts with
  | nil =>
      intro b l
      simp [retryGo_nil, countInvalidate, executedPrefix, count401]
  | cons a rest ih =>
      intro b l
      cases a with
      | status code ra =>
          by_cases h401 : code = 401
          · subst h401
            rw [retryGo_401]
            have hstop : stopsLoop (.status 401 ra) = false := rfl
            simp [countInvalidate, List.countP_cons, executedPrefix, hstop,
              count401]
            exact ih b l
          · by_cases h429 : code = 429
            · subst h429
              have hstop : stopsLoop (.status 429 ra) = false := rfl
              cases ra with
              | some v =>
                  rw [retryGo_429_retryAfter]
                  simp [countInvalidate, List.countP_cons, executedPrefix,
                    hstop, count401]
                  exact ih (b * 2) l
              | none =>
                  rw [retryGo_429_noHeader]
                  simp [countInvalidate, List.countP_cons, executedPrefix,
                    hstop, count401]
                  exact ih (b * 2) l
            · by_cases h5 : 500 ≤ code
              · rw [retryGo_5xx _ _ _ _ _ h5]
                have hstop : stopsLoop (.status code ra) = false := by
                  simp [stopsLoop]
                  omega
                simp [countInvalidate, List.countP_cons, executedPrefix,
                  hstop, count401, h401]
                exact ih (b * 2) l
              · have hstop : stopsLoop (.status code ra) = true := by
                  simp [stopsLoop, h401, h429]
                  omega
                by_cases h4 : 400 ≤ code
                · rw [retryGo_4xx _ _ _ _ _ h4 (by omega) h401 h429]
                  simp [countInvalidate, List.countP_cons, executedPrefix,
                    hstop, count401, h401]
                · rw [retryGo_success _ _ _ _ _ (by omega)]
                  simp [countInvalidate, List.countP_cons, executedPrefix,
                    hstop, count401, h401]
      | timeout =>
          rw [retryGo_timeout]
          have hstop : stopsLoop AttemptResult.timeout = false := rfl
          simp [countInvalidate, List.countP_cons, executedPrefix, hstop,
            count401]
          exact ih (b * 2) (some .timeout)
      | connError =>
          rw [retryGo_connError]
          have hstop : stopsLoop AttemptResult.connError = false := rfl
          simp [countInvalidate, List.countP_cons, executedPrefix, hstop,
            count401]
          exact ih (b * 2) (some .conn)

/-- Every executed attempt re-acquires auth headers exactly once. -/
theorem countHeaders_retryGo (attempts : List AttemptResult) :
    ∀ (b : Nat) (l : Option TransportKind),
      countHeaders (retryGo b l attempts).1 =
        (executedPrefix attempts).length := by
  induction attempts with
  | nil =>
      intro b l
      simp [retryGo_nil, countHeaders, executedPrefix]
  | cons a rest ih =>
      intro b l
      cases a with
      | status code ra =>
          by_cases h401 : code = 401
          · subst h401
            rw [retryGo_401]
            simp [countHeaders, List.countP_cons, executedPrefix, stopsLoop_401]
            exact ih b l
          · by_cases h429 : code = 429
            · subst h429
              have hstop : stopsLoop (.status 429 ra) = false := rfl
              cases ra with
              | some v =>
                  rw [retryGo_429_retryAfter]
                  simp [countHeaders, List.countP_cons, executedPrefix, hstop]
                  exact ih (b * 2) l
              | none =>
                  rw [retryGo_429_noHeader]
                  simp [countHeaders, List.countP_cons, executedPrefix, hstop]
                  exact ih (b * 2) l
            · by_cases h5 : 500 ≤ code
              · rw [retryGo_5xx _ _ _ _ _ h5]
                have hstop : stopsLoop (.status code ra) = false := by
                  simp [stopsLoop]
                  omega
                simp [countHeaders, List.countP_cons, executedPrefix, hstop]
                exact ih (b * 2) l
              · have hstop : stopsLoop (.status code ra) = true := by
                  simp [stopsLoop, h401, h429]
                  omega
                by_cases h4 : 400 ≤ code
                · rw [retryGo_4xx _ _ _ _ _ h4 (by omega) h401 h429]
                  simp [countHeaders, List.countP_cons, executedPrefix, hstop]
                · rw [retryGo_success _ _ _ _ _ (by omega)]
                  simp [countHeaders, List.countP_cons, executedPrefix, hstop]
      | timeout =>
          rw [retryGo_timeout]
          simp [countHeaders, List.countP_cons, executedPrefix, stopsLoop]
          exact ih (b * 2) (some .timeout)
      | connError =>
          rw [retryGo_connError]
          simp [countHeaders, List.countP_cons, executedPrefix, stopsLoop]
          exact ih (b * 2) (some .conn)

/-- The retry loop's trace is empty or starts with a header
acquisition. -/
theorem retryGo_trace_head (b : Nat) (l : Option TransportKind)
    (attempts : List AttemptResult) :
    (retryGo b l attempts).1 = [] ∨
      (retryGo b l attempts).1.head? = some .getHeaders := by
  cases attempts with
  | nil => left; rfl
  | cons a rest =>
      right
      cases a with
      | status code ra =>
          by_cases h401 : code = 401
          · subst h401; rw [retryGo_401]; rfl
          · by_cases h429 : code = 429
            · subst h429
              cases ra with
              | some v => rw [retryGo_429_retryAfter]; rfl
              | none => rw [retryGo_429_noHeader]; rfl
            · by_cases h5 : 500 ≤ code
              · rw [retryGo_5xx _ _ _ _ _ h5]; rfl
              · by_cases h4 : 400 ≤ code
                · rw [retryGo_4xx _ _ _ _ _ h4 (by omega) h401 h429]; rfl
                · rw [retryGo_success _ _ _ _ _ (by omega)]; rfl
      | timeout => rw [retryGo_timeout]; rfl
      | connError => rw [retryGo_connError]; rfl

/-- In every trace of the retry loop, an `invalidate_token()` call is
immediately followed by the one-second pause, and the next request (when
one happens) starts by re-acquiring headers. -/
theorem invSleepOk_retryGo (attempts : List AttemptResult) :
    ∀ (b : Nat) (l : Option TransportKind),
      invSleepOk (retryGo b l attempts).1 = true := by
  induction attempts with
  | nil => intro b l; rfl
  | cons a rest ih =>
      intro b l
      cases a with
      | status code ra =>
          by_cases h401 : code = 401
          · subst h401
            rw [retryGo_401]
            have hhead := retryGo_trace_head b l rest
            have htail := ih b l
            rcases hhead with he | hh
            · simp [invSleepOk, he]
            · cases hcons : (retryGo b l rest).1 with
              | nil => simp [invSleepOk, hcons]
              | cons e t =>
                  rw [hcons] at hh htail
                  simp only [List.head?_cons, Option.some_inj] at hh
                  subst hh
                  simp only [invSleepOk]
                  exact htail
          · by_cases h429 : code = 429
            · subst h429
              cases ra with
              | some v =>
                  rw [retryGo_429_retryAfter]
                  simpa [invSleepOk] using ih (b * 2) l
              | none =>
                  rw [retryGo_429_noHeader]
                  simpa [invSleepOk] using ih (b * 2) l
            · by_cases h5 : 500 ≤ code
              · rw [retryGo_5xx _ _ _ _ _ h5]
                simpa [invSleepOk] using ih (b * 2) l
              · by_cases h4 : 400 ≤ code
                · rw [retryGo_4xx _ _ _ _ _ h4 (by omega) h401 h429]; rfl
                · rw [retryGo_success _ _ _ _ _ (by omega)]; rfl
      | timeout =>
          rw [retryGo_timeout]
          simpa [invSleepOk] using ih (b * 2) (some .timeout)
      | connError =>
          rw [retryGo_connError]
          simpa [invSleepOk] using ih (b * 2) (some .conn)

/-- Arithmetic of one backoff doubling under the geometric-sequence
description. -/
theorem range_map_backoff_step (b m : Nat) :
    min b MAX_BACKOFF_SECONDS ::
        (List.range m).map (fun i => min (b * 2 * 2 ^ i) MAX_BACKOFF_SECONDS) =
      (List.range (m + 1)).map (fun i => min (b * 2 ^ i) MAX_BACKOFF_SECONDS) := by
  rw [List.range_succ_eq_map, List.map_cons, List.map_map]
  refine congrArg₂ _ (by simp) ?_
  refine List.map_congr_left ?_
  intro i _
  have : b * 2 ^ (i + 1) = b * 2 * 2 ^ i := by ring
  simp [Function.comp, this]

/-- Sleep durations ignore a leading header acquisition. -/
theorem sleepDurations_getHeaders (evs : List RetryEvent) :
    sleepDurations (.getHeaders :: evs) = sleepDurations evs := rfl

/-- Sleep durations record a leading sleep. -/
theorem sleepDurations_sleep (d : Nat) (evs : List RetryEvent) :
    sleepDurations (.sleep d :: evs) = d :: sleepDurations evs := rfl

/-- Sleep durations ignore a leading invalidation. -/
theorem sleepDurations_invalidate (evs : List RetryEvent) :
    sleepDurations (.invalidateToken :: evs) = sleepDurations evs := rfl

/-- A non-stopping attempt extends the executed prefix. -/
theorem executedPrefix_cons_false (a : AttemptResult)
    (rest : List AttemptResult) (h : stopsLoop a = false) :
    executedPrefix (a :: rest) = a :: executedPrefix rest := by
  simp [executedPrefix, h]

/-- A stopping attempt ends the executed prefix. -/
theorem executedPrefix_cons_true (a : AttemptResult)
    (rest : List AttemptResult) (h : stopsLoop a = true) :
    executedPrefix (a :: rest) = [a] := by
  simp [executedPrefix, h]

/-- With no 401s and no `Retry-After` headers, the sleeps of the retry
loop are exactly the capped geometric backoff sequence, one sleep per
retried (non-stopping) executed attempt. -/
theorem sleeps_retryGo (attempts : List AttemptResult) :
    ∀ (b : Nat) (l : Option TransportKind),
      (∀ a ∈ attempts, is401 a = false) →
      (∀ a ∈ attempts, noRetryAfter a = true) →
      sleepDurations (retryGo b l attempts).1 =
        (List.range ((executedPrefix attempts).countP
            (fun a => !stopsLoop a))).map
          (fun i => min (b * 2 ^ i) MAX_BACKOFF_SECONDS) := by
  induction attempts with
  | nil =>
      intro b l _ _
      simp [retryGo_nil, sleepDurations, executedPrefix]
  | cons a rest ih =>
      intro b l h401 hra
      have h401r : ∀ x ∈ rest, is401 x = false :=
        fun x hx => h401 x (by simp [hx])
      have hrar : ∀ x ∈ rest, noRetryAfter x = true :=
        fun x hx => hra x (by simp [hx])
      cases a with
      | status code ra =>
          have hc : (code == 401) = false := by
            have := h401 (.status code ra) (by simp)
            simpa [is401] using this
          have hraN : ra = none := by
            have := hra (.status code ra) (by simp)
            simpa [noRetryAfter, Option.isNone_iff_eq_none] using this
          subst hraN
          have hcode : code ≠ 401 := by simpa using hc
          by_cases h429 : code = 429
          · subst h429
            have hstop : stopsLoop (.status 429 none) = false := rfl
            rw [retryGo_429_noHeader, executedPrefix_cons_false _ _ hstop,
              List.countP_cons_of_pos _ _ (by simp [hstop]),
              sleepDurations_getHeaders, sleepDurations_sleep,
              ih (b * 2) l h401r hrar]
            exact range_map_backoff_step b _
          · by_cases h5 : 500 ≤ code
            · have hstop : stopsLoop (.status code none) = false := by
                simp [stopsLoop]
                omega
              rw [retryGo_5xx _ _ _ _ _ h5, executedPrefix_cons_false _ _ hstop,
                List.countP_cons_of_pos _ _ (by simp [hstop]),
                sleepDurations_getHeaders, sleepDurations_sleep,
                ih (b * 2) l h401r hrar]
              exact range_map_backoff_step b _
            · have hstop : stopsLoop (.status code none) = true := by
                simp [stopsLoop, hcode, h429]
                omega
              by_cases h4 : 400 ≤ code
              · rw [retryGo_4xx _ _ _ _ _ h4 (by omega) hcode h429,
                  executedPrefix_cons_true _ _ hstop]
                simp [sleepDurations, hstop]
              · rw [retryGo_success _ _ _ _ _ (by omega),
                  executedPrefix_cons_true _ _ hstop]
                simp [sleepDurations, hstop]
      | timeout =>
          have hstop : stopsLoop AttemptResult.timeout = false := rfl
          rw [retryGo_timeout, executedPrefix_cons_false _ _ hstop,
            List.countP_cons_of_pos _ _ (by simp [hstop]),
            sleepDurations_getHeaders, sleepDurations_sleep,
            ih (b * 2) (some .timeout) h401r hrar]
          exact range_map_backoff_step b _
      | connError =>
          have hstop : stopsLoop AttemptResult.connError = false := rfl
          rw [retryGo_connError, executedPrefix_cons_false _ _ hstop,
            List.countP_cons_of_pos _ _ (by simp [hstop]),
            sleepDurations_getHeaders, sleepDurations_sleep,
            ih (b * 2) (some .conn) h401r hrar]
          exact range_map_backoff_step b _

/-- When no executed attempt stops the loop, the outcome is determined by
the surviving `last_exception`: the last transport error is re-raised, or
the generic retries-exhausted error when none occurred. -/
theorem outcome_retryGo (attempts : List AttemptResult) :
    ∀ (b : Nat) (l : Option TransportKind),
      (∀ a ∈ attempts, stopsLoop a = false) →
      (retryGo b l attempts).2 =
        (match lastTransportFrom l attempts with
         | some k => .transportError k
         | none => .exhausted) := by
  induction attempts with
  | nil => intro b l _; rfl
  | cons a rest ih =>
      intro b l hfail
      have hfailr : ∀ x ∈ rest, stopsLoop x = false :=
        fun x hx => hfail x (by simp [hx])
      cases a with
      | status code ra =>
          have hns : stopsLoop (.status code ra) = false := hfail _ (by simp)
          by_cases h401 : code = 401
          · subst h401
            rw [retryGo_401]
            simpa [lastTransportFrom] using ih b l hfailr
          · by_cases h429 : code = 429
            · subst h429
              cases ra with
              | some v =>
                  rw [retryGo_429_retryAfter]
                  simpa [lastTransportFrom] using ih (b * 2) l hfailr
              | none =>
                  rw [retryGo_429_noHeader]
                  simpa [lastTransportFrom] using ih (b * 2) l hfailr
            · have h5 : 500 ≤ code := by
                simp [stopsLoop, h401, h429] at hns
                omega
              rw [retryGo_5xx _ _ _ _ _ h5]
              simpa [lastTransportFrom] using ih (b * 2) l hfailr
      | timeout =>
          rw [retryGo_timeout]
          simpa [lastTransportFrom] using ih (b * 2) (some .timeout) hfailr
      | connError =>
          rw [retryGo_connError]
          simpa [lastTransportFrom] using ih (b * 2) (some .conn) hfailr

/-- When no attempt stops the loop the whole list is executed. -/
theorem executedPrefix_eq_self (l : List AttemptResult)
    (h : ∀ a ∈ l, stopsLoop a = false) : executedPrefix l = l := by
  induction l with
  | nil => rfl
  | cons a rest ih =>
      rw [executedPrefix_cons_false _ _ (h a (by simp))]
      rw [ih (fun x hx => h x (by simp [hx]))]

/-- Status-only attempt lists leave `last_exception` untouched. -/
theorem lastTransportFrom_of_all_401 (l : List AttemptResult) :
    ∀ acc, (∀ a ∈ l, is401 a = true) → lastTransportFrom acc l = acc := by
  induction l with
  | nil => intro acc _; rfl
  | cons a rest ih =>
      intro acc h
      cases a with
      | status code ra =>
          simpa [lastTransportFrom] using ih acc (fun x hx => h x (by simp [hx]))
      | timeout => simpa [is401] using h .timeout (by simp)
      | connError => simpa [is401] using h .connError (by simp)

/-- A 401 response never stops the loop. -/
theorem stopsLoop_of_is401 (a : AttemptResult) (h : is401 a = true) :
    stopsLoop a = false := by
  cases a with
  | status code ra =>
      have : (code == 401) = true := by simpa [is401] using h
      simp [stopsLoop, this]
  | timeout => rfl
  | connError => rfl

/-- C5 (amended): in retry sequences driven by 429/5xx/timeout/connection
errors with no `Retry-After` header, the sleeps are exactly the doubling
backoff sequence starting at `INITIAL_BACKOFF_SECONDS`, each capped at
`MAX_BACKOFF_SECONDS`, and hence never exceed 120 seconds; when a 429
carries a `Retry-After` header, its value replaces the computed backoff
for that single wait verbatim — uncapped — while the backoff still
doubles. -/
theorem retry_backoff_schedule (attempts : List AttemptResult)
    (h401 : ∀ a ∈ attempts, is401 a = false)
    (hra : ∀ a ∈ attempts, noRetryAfter a = true) :
    (sleepDurations (request_with_retry attempts).1 =
      (List.range ((executedPrefix (attempts.take MAX_RETRIES)).countP
          (fun a => !stopsLoop a))).map
        (fun i => min (INITIAL_BACKOFF_SECONDS * 2 ^ i) MAX_BACKOFF_SECONDS))
    ∧ (∀ d ∈ sleepDurations (request_with_retry attempts).1,
        d ≤ MAX_BACKOFF_SECONDS)
    ∧ (∀ (b : Nat) (l : Option TransportKind) (v : Nat)
          (rest : List AttemptResult),
        retryGo b l (.status 429 (some v) :: rest) =
          (.getHeaders :: .sleep v :: (retryGo (b * 2) l rest).1,
           (retryGo (b * 2) l rest).2)) := by
  have hmain := sleeps_retryGo (attempts.take MAX_RETRIES)
    INITIAL_BACKOFF_SECONDS none
    (fun a ha => h401 a (List.mem_of_mem_take ha))
    (fun a ha => hra a (List.mem_of_mem_take ha))
  refine ⟨hmain, ?_, retryGo_429_retryAfter⟩
  intro d hd
  rw [request_with_retry, hmain] at hd
  obtain ⟨i, _, hi⟩ := List.mem_map.mp hd
  omega

/-- Witness for C5: five spaced transport/server failures sleep exactly
2, 4, 8, 16, 32 seconds. -/
theorem retry_backoff_schedule_witness :
    sleepDurations (request_with_retry
      [.timeout, .status 429 none, .status 503 none, .connError,
       .timeout]).1 = [2, 4, 8, 16, 32] := by
  have h := (retry_backoff_schedule
    [.timeout, .status 429 none, .status 503 none, .connError, .timeout]
    (by decide) (by decide)).1
  exact h.trans (by decide)

/-- C5 counterexample: a 429 carrying `Retry-After: 500` makes the loop
sleep 500 seconds, strictly beyond `MAX_BACKOFF_SECONDS`; the claim that
no slept duration exceeds 120 seconds is false. -/
theorem retry_after_sleep_uncapped :
    RetryEvent.sleep 500 ∈
      (request_with_retry [.status 429 (some 500), .status 200 none]).1
    ∧ MAX_BACKOFF_SECONDS < 500 := by
  constructor
  · decide
  · decide

/-- C6: every 401 response triggers exactly one `invalidate_token()`
call, immediately followed by the one-second pause, with the loop
continuing at the same backoff value (no doubling) and the following
attempt (when the budget allows one) re-acquiring fresh auth headers;
invalidations and header fetches are counted exactly by the executed
401s and executed attempts. -/
theorem unauthorized_response_refreshes_token :
    (∀ (b : Nat) (l : Option TransportKind) (ra : Option Nat)
        (rest : List AttemptResult),
      retryGo b l (.status 401 ra :: rest) =
        (.getHeaders :: .invalidateToken :: .sleep 1 :: (retryGo b l rest).1,
         (retryGo b l rest).2))
    ∧ (∀ attempts : List AttemptResult,
        countInvalidate (request_with_retry attempts).1 =
          count401 (executedPrefix (attempts.take MAX_RETRIES)))
    ∧ (∀ attempts : List AttemptResult,
        countHeaders (request_with_retry attempts).1 =
          (executedPrefix (attempts.take MAX_RETRIES)).length)
    ∧ (∀ attempts : List AttemptResult,
        invSleepOk (request_with_retry attempts).1 = true) :=
  ⟨retryGo_401,
   fun attempts => countInvalidate_retryGo (attempts.take MAX_RETRIES)
     INITIAL_BACKOFF_SECONDS none,
   fun attempts => countHeaders_retryGo (attempts.take MAX_RETRIES)
     INITIAL_BACKOFF_SECONDS none,
   fun attempts => invSleepOk_retryGo (attempts.take MAX_RETRIES)
     INITIAL_BACKOFF_SECONDS none⟩

/-- C7: when all five attempts fail with retryable results, the loop
fails by re-raising the last transport (timeout/connection) error, or,
when only status-code retries occurred, by the generic retries-exhausted
error. -/
theorem retries_exhausted_raises_last_transport
    (attempts : List AttemptResult)
    (hlen : MAX_RETRIES ≤ attempts.length)
    (hfail : ∀ a ∈ attempts.take MAX_RETRIES, stopsLoop a = false) :
    (∀ k, lastTransportKind (attempts.take MAX_RETRIES) = some k →
        (request_with_retry attempts).2 = .transportError k)
    ∧ (lastTransportKind (attempts.take MAX_RETRIES) = none →
        (request_with_retry attempts).2 = .exhausted) := by
  have h := outcome_retryGo (attempts.take MAX_RETRIES)
    INITIAL_BACKOFF_SECONDS none hfail
  constructor
  · intro k hk
    rw [request_with_retry, h]
    rw [lastTransportKind] at hk
    rw [hk]
  · intro hk
    rw [request_with_retry, h]
    rw [lastTransportKind] at hk
    rw [hk]

/-- Witness for C7: with a timeout among five retryable failures, the
loop re-raises the (last) timeout. -/
theorem retries_exhausted_witness :
    (request_with_retry
      [.connError, .status 429 none, .status 503 none, .status 401 none,
       .timeout]).2 = RetryOutcome.transportError .timeout := by
  have h := retries_exhausted_raises_last_transport
    [.connError, .status 429 none, .status 503 none, .status 401 none,
     .timeout] (by decide) (by decide)
  exact h.1 .timeout (by decide)

/-- C10: five consecutive 401 responses consume the whole attempt budget:
`invalidate_token()` runs exactly five times and the loop then raises the
generic retries-exhausted error instead of retrying further. -/
theorem all_401_exhausts_attempt_budget (attempts : List AttemptResult)
    (hlen : attempts.length = MAX_RETRIES)
    (h401 : ∀ a ∈ attempts, is401 a = true) :
    countInvalidate (request_with_retry attempts).1 = MAX_RETRIES
    ∧ (request_with_retry attempts).2 = .exhausted := by
  have htake : attempts.take MAX_RETRIES = attempts :=
    List.take_of_length_le (by omega)
  have hstops : ∀ a ∈ attempts, stopsLoop a = false :=
    fun a ha => stopsLoop_of_is401 a (h401 a ha)
  constructor
  · rw [request_with_retry, htake,
      countInvalidate_retryGo attempts INITIAL_BACKOFF_SECONDS none,
      executedPrefix_eq_self attempts hstops]
    have : count401 attempts = attempts.length :=
      List.countP_eq_length.mpr (fun a ha => h401 a ha)
    rw [this, hlen]
  · rw [request_with_retry, htake,
      outcome_retryGo attempts INITIAL_BACKOFF_SECONDS none hstops,
      lastTransportFrom_of_all_401 attempts none h401]

/-- Witness for C10 at five concrete 401 responses. -/
theorem all_401_witness :
    countInvalidate (request_with_retry
      [.status 401 none, .status 401 none, .status 401 none,
       .status 401 none, .status 401 none]).1 = MAX_RETRIES := by
  exact (all_401_exhausts_attempt_budget
    [.status 401 none, .status 401 none, .status 401 none,
     .status 401 none, .status 401 none] (by decide) (by decide)).1

/-- A response without a continuation link ends the loop with its own
rows, whatever further responses the environment could have served. -/
theorem paginateRows_of_none (p : QueryPage) (rest : List QueryPage)
    (h : p.nextLink = none) : paginateRows p rest = p.rows := by
  cases rest with
  | nil => rfl
  | cons q qs => simp [paginateRows, h]

/-- A response with a continuation link contributes its rows and the loop
fetches the next page. -/
theorem paginateRows_cons_some (p q : QueryPage) (qs : List QueryPage)
    (s : String) (h : p.nextLink = some s) :
    paginateRows p (q :: qs) = p.rows ++ paginateRows q qs := by
  simp [paginateRows, h]

/-- Row accumulation across a well-formed pagination chain: every page up
to (and including) the first link-free page contributes its rows, in page
order, and pages after the first link-free page are never fetched. -/
theorem paginateRows_concat (mid : List QueryPage) :
    ∀ (first lastP : QueryPage) (extra : List QueryPage),
      (∀ p ∈ first :: mid, p.nextLink.isSome = true) →
      lastP.nextLink = none →
      paginateRows first (mid ++ lastP :: extra) =
        (((first :: mid) ++ [lastP]).map QueryPage.rows).flatten := by
  induction mid with
  | nil =>
      intro first lastP extra hlinks hlast
      have hf := hlinks first (by simp)
      cases hnl : first.nextLink with
      | none => rw [hnl] at hf; simp at hf
      | some s =>
          simp only [List.nil_append]
          rw [paginateRows_cons_some first lastP extra s hnl,
            paginateRows_of_none lastP extra hlast]
          simp
  | cons m ms ih =>
      intro first lastP extra hlinks hlast
      have hf := hlinks first (by simp)
      cases hnl : first.nextLink with
      | none => rw [hnl] at hf; simp at hf
      | some s =>
          have hrec := ih m lastP extra
            (fun p hp => hlinks p (by
              rcases List.mem_cons.mp hp with rfl | hp2
              · simp
              · simp [hp2])) hlast
          simp only [List.cons_append]
          rw [paginateRows_cons_some first m (ms ++ lastP :: extra) s hnl,
            hrec]
          simp

/-- The pagination loop never reads the column schema of later pages. -/
theorem paginateRows_ignores_columns (rest : List QueryPage) :
    ∀ (first : QueryPage) (g : QueryPage → List String),
      paginateRows first (rest.map (fun p => ⟨g p, p.rows, p.nextLink⟩)) =
        paginateRows first rest := by
  induction rest with
  | nil => intro first g; rfl
  | cons q qs ih =>
      intro first g
      cases hnl : first.nextLink with
      | none =>
          rw [List.map_cons, paginateRows_of_none _ _ hnl,
            paginateRows_of_none _ _ hnl]
      | some s =>
          rw [List.map_cons, paginateRows_cons_some _ _ _ s hnl,
            paginateRows_cons_some _ _ _ s hnl]
          have hhead : paginateRows ⟨g q, q.rows, q.nextLink⟩
              (qs.map (fun p => ⟨g p, p.rows, p.nextLink⟩)) =
              paginateRows q (qs.map (fun p => ⟨g p, p.rows, p.nextLink⟩)) := by
            cases hq2 : qs.map (fun p =>
                (⟨g p, p.rows, p.nextLink⟩ : QueryPage)) with
            | nil => rfl
            | cons y ys =>
                cases hq : q.nextLink with
                | none => simp [paginateRows, hq]
                | some t => simp [paginateRows, hq]
          rw [hhead, ih q g]

/-- C3: over every well-formed paginated response sequence the extraction
loop runs exactly until the first response without a `nextLink`
(responses beyond it are never fetched), returns the concatenation of the
rows of the visited pages in page order, and takes the column schema of
its CSV output solely from the first response — later pages' column
metadata is never read, let alone re-validated. -/
theorem pagination_concatenates_in_order
    (first lastP : QueryPage) (mid extra : List QueryPage)
    (hlinks : ∀ p ∈ first :: mid, p.nextLink.isSome = true)
    (hlast : lastP.nextLink = none) :
    (extract_single_scope first (mid ++ lastP :: extra) =
      (convert_to_csv first.columns
         ((((first :: mid) ++ [lastP]).map QueryPage.rows).flatten),
       ((((first :: mid) ++ [lastP]).map QueryPage.rows).flatten).length))
    ∧ (∀ (f : QueryPage) (r : List QueryPage) (g : QueryPage → List String),
        extract_single_scope f (r.map (fun p => ⟨g p, p.rows, p.nextLink⟩)) =
          extract_single_scope f r)
    ∧ (∀ (f : QueryPage) (r : List QueryPage),
        (extract_single_scope f r).1.head? = some f.columns) := by
  refine ⟨?_, ?_, ?_⟩
  · rw [extract_single_scope,
      paginateRows_concat mid first lastP extra hlinks hlast]
  · intro f r g
    rw [extract_single_scope, extract_single_scope,
      paginateRows_ignores_columns r f g]
  · intro f r
    rfl

/-- Witness for C3 at a two-page chain followed by an unreachable junk
page: rows concatenate in order and the junk page is ignored. -/
theorem pagination_witness :
    extract_single_scope ⟨["A"], [["1"]], some "next"⟩
      [⟨["B"], [["2"], ["3"]], none⟩, ⟨["junk"], [["9"]], none⟩] =
      (convert_to_csv ["A"] [["1"], ["2"], ["3"]], 3) := by
  have h := (pagination_concatenates_in_order
    ⟨["A"], [["1"]], some "next"⟩ ⟨["B"], [["2"], ["3"]], none⟩ []
    [⟨["junk"], [["9"]], none⟩] (by decide) (by decide)).1
  exact h.trans (by decide)

/-- Python `split` always yields at least one piece. -/
theorem splitSlash_ne_nil (l : List Char) : splitSlash l ≠ [] := by
  cases l with
  | nil => simp [splitSlash]
  | cons c cs =>
      simp only [splitSlash]
      by_cases h : c = '/'
      · simp [h]
      · simp only [h, if_false]
        cases splitSlash cs with
        | nil => simp
        | cons q qs => simp

/-- The first piece of `splitSlash` is a prefix of the input. -/
theorem splitSlash_head_prefixOf (l : List Char) :
    ∀ p ps, splitSlash l = p :: ps → p.isPrefixOf l = true := by
  induction l with
  | nil =>
      intro p ps h
      have h2 : ([[]] : List (List Char)) = p :: ps := h
      injection h2 with h1 _
      subst h1
      rfl
  | cons c cs ih =>
      intro p ps h
      simp only [splitSlash] at h
      by_cases hc : c = '/'
      · rw [if_pos hc] at h
        injection h with h1 _
        subst h1
        rfl
      · rw [if_neg hc] at h
        cases hr : splitSlash cs with
        | nil => exact absurd hr (splitSlash_ne_nil cs)
        | cons q qs =>
            rw [hr] at h
            have h2 : (c :: q) :: qs = p :: ps := h
            injection h2 with h1 _
            subst h1
            have hq := ih q qs hr
            simp [List.isPrefixOf, hq]

/-- Every piece of `splitSlash` occurs as a substring of the input, so the
source's `in` guard passes whenever `parts.index` would succeed. -/
theorem mem_splitSlash_hasSubstring (l : List Char) :
    ∀ a, a ∈ splitSlash l → hasSubstring l a = true := by
  induction l with
  | nil =>
      intro a ha
      simp [splitSlash] at ha
      simp [ha, hasSubstring]
  | cons c cs ih =>
      intro a ha
      simp only [splitSlash] at ha
      by_cases hc : c = '/'
      · rw [if_pos hc] at ha
        rcases List.mem_cons.mp ha with rfl | ha2
        · simp [hasSubstring, List.isPrefixOf]
        · simp only [hasSubstring, Bool.or_eq_true]
          exact Or.inr (ih a ha2)
      · rw [if_neg hc] at ha
        cases hr : splitSlash cs with
        | nil => exact absurd hr (splitSlash_ne_nil cs)
        | cons q qs =>
            rw [hr] at ha
            rcases List.mem_cons.mp ha with rfl | ha2
            · have hq : q.isPrefixOf cs = true :=
                splitSlash_head_prefixOf cs q qs hr
              simp only [hasSubstring, Bool.or_eq_true]
              left
              simp [List.isPrefixOf, hq]
            · have : a ∈ splitSlash cs := by rw [hr]; exact List.mem_cons_of_mem q ha2
              simp only [hasSubstring, Bool.or_eq_true]
              exact Or.inr (ih a this)

/-- A successful `parts.index` certifies membership. -/
theorem mem_of_findIdx?_beq {l : List (List Char)} {x : List Char} {i : Nat}
    (h : l.findIdx? (fun q => q == x) = some i) : x ∈ l := by
  have hs : (l.findIdx? (fun q => q == x)).isSome = true := by
    rw [h]; rfl
  rw [List.findIdx?_isSome] at hs
  obtain ⟨q, hq, hbeq⟩ := List.any_eq_true.mp hs
  exact eq_of_beq hbeq ▸ hq

/-- C8 (amended): scope-name derivation.  A `subscriptions` segment with a
following id yields `subscription-` plus the id's first 8 characters; a
`managementGroups` segment with a following id (and no `subscriptions`
segment) yields `mg-` plus the id; otherwise the result is the *last*
path segment when it is non-empty, and the first 20 characters of the raw
id when the last segment is empty (e.g. a trailing slash) — not the last
non-empty segment.  The spec's scenario holds. -/
theorem scope_name_derivation (l : List Char) :
    (∀ i p,
        (splitSlash l).findIdx? (fun q => q == "subscriptions".data) = some i →
        (splitSlash l).get? (i + 1) = some p →
        scope_name_core l = "subscription-".data ++ p.take 8)
    ∧ (∀ i p,
        (splitSlash l).findIdx? (fun q => q == "subscriptions".data) = none →
        (splitSlash l).findIdx? (fun q => q == "managementGroups".data) = some i →
        (splitSlash l).get? (i + 1) = some p →
        scope_name_core l = "mg-".data ++ p)
    ∧ ((splitSlash l).findIdx? (fun q => q == "subscriptions".data) = none →
        (splitSlash l).findIdx? (fun q => q == "managementGroups".data) = none →
        scope_name_core l =
          (if ((splitSlash l).getLastD []).isEmpty then l.take 20
           else (splitSlash l).getLastD []))
    ∧ extract_scope_name "/subscriptions/abcdef12-3456-7890" =
        "subscription-abcdef12" := by
  refine ⟨?_, ?_, ?_, by decide⟩
  · intro i p hidx hget
    have hmem := mem_of_findIdx?_beq hidx
    have hsub := mem_splitSlash_hasSubstring l _ hmem
    simp only [scope_name_core, hsub, if_true, hidx, hget]
  · intro i p hsn hidx hget
    have hmem := mem_of_findIdx?_beq hidx
    have hmg := mem_splitSlash_hasSubstring l _ hmem
    by_cases hss : hasSubstring l ("subscriptions".data) <;>
      simp only [scope_name_core, hss, hsn, hmg, hidx, hget, if_true,
        if_false, Bool.false_eq_true]
  · intro hsn hmn
    by_cases hss : hasSubstring l ("subscriptions".data) <;>
      by_cases hmg : hasSubstring l ("managementGroups".data) <;>
        simp only [scope_name_core, hss, hmg, hsn, hmn, if_true, if_false,
          Bool.false_eq_true]

/-- Witness for C8 at a concrete subscription scope and a concrete
fallback scope. -/
theorem scope_name_witness :
    scope_name_core ("/subscriptions/abcdef12345".data) =
      "subscription-abcdef12".data := by
  have h := (scope_name_derivation ("/subscriptions/abcdef12345".data)).1
    1 ("abcdef12345".data) (by decide) (by decide)
  exact h.trans (by decide)

/-- C8 counterexample: for the scope id `a/b/`, whose last path segment is
empty, the source returns the truncated raw id `a/b/` — not the last
non-empty segment `b` the claim requires. -/
theorem trailing_slash_scope_name :
    scope_name_core ("a/b/".data) = "a/b/".data
    ∧ scope_name_core ("a/b/".data) ≠ "b".data := by
  constructor
  · decide
  · decide

/-- Rows surviving the deduplicating rewrite come from the input. -/
theorem mem_drop_duplicates_keep_last (keyCols cols : List String) :
    ∀ (rows : List (List String)) (x : List String),
      x ∈ drop_duplicates_keep_last keyCols cols rows → x ∈ rows := by
  intro rows
  induction rows with
  | nil => intro x hx; simpa [drop_duplicates_keep_last] using hx
  | cons r rs ih =>
      intro x hx
      by_cases hdup : rs.any
          (fun r2 => decide (keyOf keyCols cols r2 = keyOf keyCols cols r))
      · rw [drop_duplicates_keep_last, if_pos hdup] at hx
        exact List.mem_cons_of_mem r (ih x hx)
      · rw [drop_duplicates_keep_last, if_neg hdup] at hx
        rcases List.mem_cons.mp hx with rfl | hx2
        · simp
        · exact List.mem_cons_of_mem r (ih x hx2)

/-- The deduplicating rewrite leaves at most one row per key projection:
its key projections are pairwise distinct. -/
theorem nodup_keys_drop_duplicates (keyCols cols : List String) :
    ∀ rows : List (List String),
      ((drop_duplicates_keep_last keyCols cols rows).map
        (keyOf keyCols cols)).Nodup := by
  intro rows
  induction rows with
  | nil => simp [drop_duplicates_keep_last]
  | cons r rs ih =>
      by_cases hdup : rs.any
          (fun r2 => decide (keyOf keyCols cols r2 = keyOf keyCols cols r))
      · rw [drop_duplicates_keep_last, if_pos hdup]
        exact ih
      · rw [drop_duplicates_keep_last, if_neg hdup]
        rw [List.map_cons, List.nodup_cons]
        refine ⟨?_, ih⟩
        intro hmem
        obtain ⟨r2, hr2, hkey⟩ := List.mem_map.mp hmem
        have hr2rs := mem_drop_duplicates_keep_last keyCols cols rs r2 hr2
        have : rs.any
            (fun r2 => decide (keyOf keyCols cols r2 = keyOf keyCols cols r)) = true :=
          List.any_eq_true.mpr ⟨r2, hr2rs, by simp [hkey]⟩
        exact hdup this

/-- Counting by a finer key: if `g` is determined by `f`, a list whose
`g`-projections are pairwise distinct holds at most one element of any
`f`-value. -/
theorem countP_le_one_of_det {A K K2 : Type} [DecidableEq K]
    (f : A → K) (g : A → K2)
    (hdet : ∀ a b, f a = f b → g a = g b) :
    ∀ (l : List A), (l.map g).Nodup →
      ∀ k, l.countP (fun a => decide (f a = k)) ≤ 1 := by
  intro l
  induction l with
  | nil => intro _ k; simp
  | cons a rest ih =>
      intro hnd k
      rw [List.map_cons, List.nodup_cons] at hnd
      by_cases hfa : f a = k
      · rw [List.countP_cons_of_pos _ _ (by simp [hfa])]
        have hzero : rest.countP (fun x => decide (f x = k)) = 0 := by
          rw [List.countP_eq_zero]
          intro x hx
          simp only [decide_eq_true_eq]
          intro hfx
          exact hnd.1 (List.mem_map.mpr ⟨x, hx,
            (hdet x a (by rw [hfx, hfa])).symm ▸ rfl⟩)
        omega
      · rw [List.countP_cons_of_neg _ _ (by simp [hfa])]
        exact ih hnd.2 k

/-- The full composite key determines every sub-projection onto a filtered
key-column list. -/
theorem keyOf_filter_det (kc cols : List String) (p : String → Bool)
    (a b : List String) (h : keyOf kc cols a = keyOf kc cols b) :
    keyOf (kc.filter p) cols a = keyOf (kc.filter p) cols b := by
  have hpt : ∀ c ∈ kc, colVal cols a c = colVal cols b c :=
    List.map_inj_left.mp h
  exact List.map_congr_left fun c hc =>
    hpt c (List.mem_of_mem_filter hc)

/-- The Delta MERGE preserves pairwise-distinct composite keys: updates
keep the matched target row's key, and inserted source rows have keys
absent from the target. -/
theorem nodup_merge_rows (cols : List String) (trows srows : List (List String))
    (ht : (trows.map (keyOf deltaKeyColumns cols)).Nodup)
    (hs : (srows.map (keyOf deltaKeyColumns cols)).Nodup) :
    ((merge_rows cols trows cols srows).map
      (keyOf deltaKeyColumns cols)).Nodup := by
  have hupd : (trows.map (fun tr =>
      match srows.find? (fun sr =>
          decide (keyOf deltaKeyColumns cols sr = keyOf deltaKeyColumns cols tr)) with
      | some sr => sr
      | none => tr)).map (keyOf deltaKeyColumns cols) =
      trows.map (keyOf deltaKeyColumns cols) := by
    rw [List.map_map]
    refine List.map_congr_left ?_
    intro tr htr
    simp only [Function.comp]
    cases hf : srows.find? (fun sr =>
        decide (keyOf deltaKeyColumns cols sr = keyOf deltaKeyColumns cols tr)) with
    | none => rfl
    | some sr =>
        have hp := List.find?_some hf
        exact of_decide_eq_true hp
  rw [merge_rows, List.map_append, hupd]
  refine ht.append (((List.filter_sublist srows).map _).nodup hs) ?_
  intro k hk1 hk2
  obtain ⟨tr, htr, hktr⟩ := List.mem_map.mp hk1
  obtain ⟨sr, hsr, hksr⟩ := List.mem_map.mp hk2
  rw [List.mem_filter] at hsr
  have hnone := hsr.2
  rw [Bool.not_eq_true'] at hnone
  have hall := List.any_eq_false.mp hnone tr htr
  simp only [decide_eq_true_eq] at hall
  exact hall (by rw [hktr, ← hksr])

/-- Creating or MERGE-updating a Delta table from a frame with pairwise
distinct composite keys preserves key uniqueness and the column list. -/
theorem merge_to_delta_nodup (state : Option DataFrame) (df : DataFrame)
    (hdf : (df.rows.map (keyOf deltaKeyColumns df.cols)).Nodup)
    (hstate : ∀ t, state = some t →
        (t.rows.map (keyOf deltaKeyColumns t.cols)).Nodup ∧ t.cols = df.cols) :
    ∀ out, merge_to_delta state df = some out →
      (out.rows.map (keyOf deltaKeyColumns out.cols)).Nodup ∧
        out.cols = df.cols := by
  intro out hout
  cases state with
  | none =>
      have : df = out := by simpa [merge_to_delta] using hout
      subst this
      exact ⟨hdf, rfl⟩
  | some t =>
      obtain ⟨htn, htc⟩ := hstate t rfl
      have hout2 : (⟨t.cols, merge_rows t.cols t.rows df.cols df.rows⟩ :
          DataFrame) = out := by simpa [merge_to_delta] using hout
      subst hout2
      rw [htc] at htn ⊢
      exact ⟨nodup_merge_rows df.cols t.rows df.rows htn hdf, rfl⟩

/-- Column list of the CSV rewrite. -/
theorem save_to_csv_cols (ex df : DataFrame) :
    (save_to_csv (some ex) df).cols = ex.cols := by
  simp only [save_to_csv]
  split <;> rfl

/-- A CSV rewrite onto an existing file whose columns include the
`_source_scope` lineage column deduplicates on the available key columns,
leaving at most one row per composite key. -/
theorem save_to_csv_dedup_keys (s1 df2 : DataFrame)
    (hsrc : "_source_scope" ∈ s1.cols) :
    ∀ k, ((save_to_csv (some s1) df2).rows.countP
        (fun r => decide (keyOf csvKeyColumns
          (save_to_csv (some s1) df2).cols r = k))) ≤ 1 := by
  have havail : "_source_scope" ∈ csvKeyColumns.filter
      (fun c => s1.cols.contains c) := by
    rw [List.mem_filter]
    exact ⟨by decide, List.elem_iff.mpr hsrc⟩
  have hne : csvKeyColumns.filter (fun c => s1.cols.contains c) ≠ [] :=
    List.ne_nil_of_mem havail
  have heq : save_to_csv (some s1) df2 =
      ⟨s1.cols,
       drop_duplicates_keep_last
         (csvKeyColumns.filter (fun c => s1.cols.contains c))
         s1.cols (s1.rows ++ df2.rows)⟩ := by
    simp only [save_to_csv]
    rw [if_neg hne]
  rw [heq]
  intro k
  exact countP_le_one_of_det _ _
    (keyOf_filter_det csvKeyColumns s1.cols
      (fun c => s1.cols.contains c))
    _ (nodup_keys_drop_duplicates _ _ _) k

/-- C1 (amended): writing the same report twice in merge/idempotent mode
leaves each composite key at most once in the final sink state, provided
the written frame's rows are pairwise distinct on the composite key and
the pre-existing sink state is itself key-unique (both hold for states
produced by merge-mode writes of such frames; without these provisos the
Delta MERGE preserves existing duplicates).  The CSV rewrite needs no
key-uniqueness proviso: its second write deduplicates the whole file on
the key columns available after metadata enrichment. -/
theorem merge_mode_write_idempotent
    (prior : Option DataFrame) (df1 df2 : DataFrame)
    (hcols : df1.cols = df2.cols)
    (hnodup1 : (df1.rows.map (keyOf deltaKeyColumns df1.cols)).Nodup)
    (hnodup2 : (df2.rows.map (keyOf deltaKeyColumns df2.cols)).Nodup)
    (hprior : ∀ t, prior = some t →
        (t.rows.map (keyOf deltaKeyColumns t.cols)).Nodup ∧ t.cols = df1.cols) :
    (∀ final, merge_to_delta (merge_to_delta prior df1) df2 = some final →
        ∀ k, final.rows.countP
            (fun r => decide (keyOf deltaKeyColumns final.cols r = k)) ≤ 1)
    ∧ ("_source_scope" ∈ df1.cols →
        ∀ priorCsv : Option DataFrame,
        (∀ t, priorCsv = some t → t.cols = df1.cols) →
        ∀ k, ((save_to_csv (some (save_to_csv priorCsv df1)) df2).rows.countP
            (fun r => decide (keyOf csvKeyColumns
              (save_to_csv (some (save_to_csv priorCsv df1)) df2).cols r = k)))
          ≤ 1) := by
  constructor
  · intro final hfinal k
    have h1 := merge_to_delta_nodup prior df1 hnodup1 hprior
    rw [← hcols] at hnodup2
    have h2 := merge_to_delta_nodup (merge_to_delta prior df1) df2
      (hcols ▸ hnodup2)
      (fun t ht => by
        obtain ⟨htn, htc⟩ := h1 t ht
        exact ⟨htn, htc.trans hcols⟩)
    obtain ⟨hfn, _⟩ := h2 final hfinal
    exact countP_le_one_of_det _ _ (fun a b h => h) final.rows hfn k
  · intro hsrc priorCsv hp k
    have hs1cols : (save_to_csv priorCsv df1).cols = df1.cols := by
      cases hp2 : priorCsv with
      | none => rfl
      | some t => rw [save_to_csv_cols]; exact hp t hp2
    exact save_to_csv_dedup_keys (save_to_csv priorCsv df1) df2
      (hs1cols ▸ hsrc) k

/-- A report frame whose two rows share the composite key (same resource,
meter, subscription and date; different in another column). -/
def dupKeyFrame : DataFrame :=
  ⟨["ResourceId", "Other"], [["x", "a"], ["x", "b"]]⟩

/-- C1 counterexample: writing `dupKeyFrame` twice in merge mode from an
empty sink leaves its composite key twice in the final Delta state — the
first write creates the table with both rows, and the MERGE then updates
both matched target rows in place, never collapsing them. -/
theorem merge_keeps_duplicate_keys :
    merge_to_delta (merge_to_delta none dupKeyFrame) dupKeyFrame =
      some ⟨["ResourceId", "Other"], [["x", "a"], ["x", "a"]]⟩
    ∧ ¬ (([["x", "a"], ["x", "a"]] : List (List String)).countP
          (fun r => decide (keyOf deltaKeyColumns ["ResourceId", "Other"] r =
            keyOf deltaKeyColumns ["ResourceId", "Other"] ["x", "a"])) ≤ 1) := by
  constructor
  · decide
  · decide

/-- Frame used by the C1 witness: two rows with distinct composite keys
and the `_source_scope` lineage column present. -/
def wellKeyedFrame : DataFrame :=
  ⟨["ResourceId", "_source_scope"], [["x", "s"], ["y", "s"]]⟩

/-- Witness for C1 at a concrete double write of a well-keyed frame, on
both the Delta path and the CSV path. -/
theorem merge_mode_write_idempotent_witness :
    (DataFrame.mk ["ResourceId", "_source_scope"]
        [["x", "s"], ["y", "s"]]).rows.countP
      (fun r => decide (keyOf deltaKeyColumns
        (DataFrame.mk ["ResourceId", "_source_scope"]
          [["x", "s"], ["y", "s"]]).cols r =
          [none, some "x", none, none, some "s"])) ≤ 1
    ∧ ((save_to_csv (some (save_to_csv none wellKeyedFrame)) wellKeyedFrame).rows.countP
        (fun r => decide (keyOf csvKeyColumns
          (save_to_csv (some (save_to_csv none wellKeyedFrame)) wellKeyedFrame).cols r =
            [none, some "x", none, none, some "s"])) ≤ 1) := by
  have h := merge_mode_write_idempotent none wellKeyedFrame wellKeyedFrame
    rfl (by decide) (by decide) (fun t ht => by cases ht)
  constructor
  · exact h.1 (DataFrame.mk ["ResourceId", "_source_scope"]
      [["x", "s"], ["y", "s"]]) (by decide)
      [none, some "x", none, none, some "s"]
  · exact h.2 (by decide) none (fun t ht => by cases ht)
      [none, some "x", none, none, some "s"]
